import Mathlib

/-!
Shallow embedding of the cpass password generator (package `generator`,
plus the rating function from `main.go`).

Bytes are modelled as `Nat`; all charset characters are ASCII so a byte
equals its code point.  The `uint32` parameters are modelled as `Nat`
with explicit `% 2 ^ 32` wrapping exactly where the Go code performs a
`uint32` addition.  The cryptographically secure entropy source is
modelled as an arbitrary stream `s : Nat → Nat` together with a cursor
`k : Nat`; each primitive draw consumes one stream element.  A draw of a
whitened random byte uses `s k % 256` (every byte value is reachable),
and a draw of `rand.Int(rand.Reader, n)` uses `s k % n` (every value in
`[0, n)` is reachable).  Errors of the entropy source itself are not
modelled (the stream is total); the only failure of `Generate` in the
model is the "anti-deadlock" internal invariant error, rendered as
`none`.
-/

namespace Cpass

/-- Byte values of an ASCII string, as the Go code indexes strings by byte. -/
def strBytes (s : String) : List Nat := s.data.map Char.toNat

/-- Source: `var letterCharset = "abcdefghijkmnpqrstuvwxyz"` (24 letters, no l/o). -/
def letterCharset : List Nat := strBytes "abcdefghijkmnpqrstuvwxyz"

/-- Source: `var digitCharset = "0123456789"`. -/
def digitCharset : List Nat := strBytes "0123456789"

/-- Source: `var specialCharset = "~!@#$%^&*_+[]/?<>."`. -/
def specialCharset : List Nat := strBytes "~!@#$%^&*_+[]/?<>."

/-- Modulus of Go's `uint32` arithmetic. -/
def U32 : Nat := 2 ^ 32

/-- The `Generator` struct: four `uint32` fields. -/
structure Generator where
  length : Nat
  uppercaseCount : Nat
  digitCount : Nat
  specialCount : Nat
deriving DecidableEq

/-- Validation in `NewGenerator`.  The sum `uppercaseCount+digitCount+specialCount`
is a `uint32` addition in Go, hence the `% U32` wrap. -/
def NewGenerator (length uppercaseCount digitCount specialCount : Nat) :
    Except String Generator :=
  let g : Generator := ⟨length, uppercaseCount, digitCount, specialCount⟩
  if g.length > 128 then
    Except.error "exceeded the maximum length of 128"
  else if (g.uppercaseCount + g.digitCount + g.specialCount) % U32 > g.length then
    Except.error "uppercase count + digit count + special count > length"
  else
    Except.ok g

/-- The `possibleChars` accumulation in `Generator.EntropyMax`. -/
def possibleCharsMax (g : Generator) : Nat :=
  1 + letterCharset.length
    + (if g.uppercaseCount ≠ 0 then letterCharset.length else 0)
    + (if g.digitCount ≠ 0 then digitCharset.length else 0)
    + (if g.specialCount ≠ 0 then specialCharset.length else 0)

/-- Model of `Generator.EntropyMax`: bit length of `possibleChars ^ length - 1`
(`big.Int.BitLen`, which is `Nat.size` for non-negative values). -/
def EntropyMax (g : Generator) : Nat :=
  Nat.size (possibleCharsMax g ^ g.length - 1)

/-- Model of `Generator.EntropyMin`.  Here `nonBaseCount` is the same wrapping `uint32`
sum as in `NewGenerator`; `baseChars` is the `uint32` subtraction
`g.length - nonBaseCount`, taken in the branch where it cannot wrap. -/
def EntropyMin (g : Generator) : Except String Nat :=
  let nonBaseCount := (g.uppercaseCount + g.digitCount + g.specialCount) % U32
  if nonBaseCount > g.length then
    Except.error "non-base letter character count exceeds the total length"
  else
    let baseChars := g.length - nonBaseCount
    let possibleCombinations :=
      1 * (1 + letterCharset.length) ^ baseChars
        * (1 + letterCharset.length) ^ g.uppercaseCount
        * (1 + digitCharset.length) ^ g.digitCount
        * (1 + specialCharset.length) ^ g.specialCount
    Except.ok (Nat.size (possibleCombinations - 1))

/-- The lookup `charset[b % byte(len(charset))]` — the final reduction in
`secureRandomChar` applied to a whitened byte `b`. -/
def charsetSelect (charset : List Nat) (b : Nat) : Nat :=
  charset.getD (b % charset.length) 0

/-- Model of `secureRandomChar`: the whitened byte produced by `secureRandomByte`
is modelled as the next stream element reduced to a byte. -/
def secureRandomChar (charset : List Nat) (s : Nat → Nat) (k : Nat) : Nat × Nat :=
  (charsetSelect charset (s k % 256), k + 1)

/-- The map `unicode.ToUpper` restricted to the ASCII range, which is the only
range it is applied to (inputs are members of `letterCharset`). -/
def asciiToUpper (c : Nat) : Nat :=
  if 97 ≤ c ∧ c ≤ 122 then c - 32 else c

/-- The uppercase letters reachable by case-folding `letterCharset`. -/
def upperCharset : List Nat := letterCharset.map asciiToUpper

/-- The `applyFn` closure of `applyUppercase` (consumes no entropy). -/
def uppercaseApply (c : Nat) (_s : Nat → Nat) (k : Nat) : Nat × Nat :=
  (asciiToUpper c, k)

/-- The `applyFn` closure of `applyDigits` (draws a fresh digit). -/
def digitApply (_c : Nat) (s : Nat → Nat) (k : Nat) : Nat × Nat :=
  secureRandomChar digitCharset s k

/-- The `applyFn` closure of `applySpecial` (draws a fresh special char). -/
def specialApply (_c : Nat) (s : Nat → Nat) (k : Nat) : Nat × Nat :=
  secureRandomChar specialCharset s k

/-- The loop body of `Generator.generateBase`: `n` independent draws from
`letterCharset`. -/
def generateBaseAux (s : Nat → Nat) : Nat → Nat → List Nat × Nat
  | 0, k => ([], k)
  | n + 1, k =>
    let c := secureRandomChar letterCharset s k
    let rest := generateBaseAux s n c.2
    (c.1 :: rest.1, rest.2)

/-- Model of `Generator.generateBase`. -/
def generateBase (g : Generator) (s : Nat → Nat) (k : Nat) : List Nat × Nat :=
  generateBaseAux s g.length k

/-- The inner attempt loop of `seekNonBaseLetterAndApply` (`for ii := 0;
ii < 100000 && !ok; ii++`): draw a position, and if it still holds an
unmodified base letter, apply `f` there; otherwise retry.  `none` models
running out of the 100000-attempt budget. -/
def seekOneAux (len : Nat) (f : Nat → (Nat → Nat) → Nat → Nat × Nat)
    (s : Nat → Nat) (buf : List Nat) : Nat → Nat → Option (List Nat × Nat)
  | 0, _ => none
  | fuel + 1, k =>
    let pos := s k % len
    let char := buf.getD pos 0
    if char ∈ letterCharset then
      let r := f char s (k + 1)
      some (buf.set pos r.1, r.2)
    else
      seekOneAux len f s buf fuel (k + 1)

/-- Model of `Generator.seekNonBaseLetterAndApply`: perform `count` substitutions,
each with a fresh 100000-attempt budget.  `none` models the
"anti-deadlock" internal invariant error. -/
def seekNonBaseLetterAndApply (len : Nat) (f : Nat → (Nat → Nat) → Nat → Nat × Nat)
    (s : Nat → Nat) : Nat → List Nat → Nat → Option (List Nat × Nat)
  | 0, buf, k => some (buf, k)
  | count + 1, buf, k =>
    match seekOneAux len f s buf 100000 k with
    | none => none
    | some (buf2, k2) => seekNonBaseLetterAndApply len f s count buf2 k2

/-- Model of `Generator.Generate`: base fill, then the uppercase, digit and
special passes in that order; each pass's error aborts the whole run
(`Option.bind` models Go's sequential `if err != nil` returns). -/
def Generate (g : Generator) (s : Nat → Nat) (k : Nat) : Option (List Nat × Nat) :=
  (seekNonBaseLetterAndApply g.length uppercaseApply s g.uppercaseCount
      (generateBase g s k).1 (generateBase g s k).2).bind fun r1 =>
    (seekNonBaseLetterAndApply g.length digitApply s g.digitCount r1.1 r1.2).bind fun r2 =>
      seekNonBaseLetterAndApply g.length specialApply s g.specialCount r2.1 r2.2

/-- The rating bands of `getRatingString` from `main.go`.  The Go argument is a `float64`;
it is modelled as `ℚ`, exact for every value produced by the program
(an average of two small integers). -/
def getRatingString (entropyBits : ℚ) : String :=
  if entropyBits ≤ 32 then "Very Poor"
  else if entropyBits ≤ 48 then "Poor"
  else if entropyBits ≤ 72 then "Weak"
  else if entropyBits ≤ 96 then "Good"
  else if entropyBits ≤ 120 then "Excellent"
  else "Overkill"

/-- All four charset classes a generated byte can belong to. -/
def allowedCharset : List Nat :=
  letterCharset ++ upperCharset ++ digitCharset ++ specialCharset

/-- Number of the four charset classes containing a byte. -/
def classCount (c : Nat) : Nat :=
  (if c ∈ letterCharset then 1 else 0) + (if c ∈ upperCharset then 1 else 0)
    + (if c ∈ digitCharset then 1 else 0) + (if c ∈ specialCharset then 1 else 0)

/-- Occurrences of members of class `S` in a buffer. -/
def countClass (S : List Nat) (b : List Nat) : Nat :=
  b.countP fun c => decide (c ∈ S)

/-- How many of the 256 whitened byte values select a given character
under the final `% len(charset)` reduction of `secureRandomChar`. -/
def produceCount (charset : List Nat) (c : Nat) : Nat :=
  ((List.range 256).filter fun b => charsetSelect charset b = c).length

/-- The uniformity property claimed for `secureRandomChar` over a
charset: every member is selected by the same number of byte values. -/
def uniformOverCharset (charset : List Nat) : Prop :=
  ∀ c ∈ charset, ∀ c2 ∈ charset, produceCount charset c = produceCount charset c2

/-! ## Basic charset facts -/

theorem letterCharset_length : letterCharset.length = 24 := rfl

theorem digitCharset_length : digitCharset.length = 10 := rfl

theorem specialCharset_length : specialCharset.length = 18 := rfl

theorem zero_not_mem_letter : (0 : Nat) ∉ letterCharset := by decide

/-- Case-folding a base letter yields an uppercase-class byte and leaves
every other class. -/
theorem letter_upper_facts : ∀ c ∈ letterCharset,
    asciiToUpper c ∈ upperCharset ∧ asciiToUpper c ∉ letterCharset ∧
      asciiToUpper c ∉ digitCharset ∧ asciiToUpper c ∉ specialCharset := by decide

theorem letter_class : ∀ c ∈ letterCharset,
    c ∉ upperCharset ∧ c ∉ digitCharset ∧ c ∉ specialCharset := by decide

theorem digit_class : ∀ c ∈ digitCharset,
    c ∉ letterCharset ∧ c ∉ upperCharset ∧ c ∉ specialCharset := by decide

theorem special_class : ∀ c ∈ specialCharset,
    c ∉ letterCharset ∧ c ∉ upperCharset ∧ c ∉ digitCharset := by decide

theorem letter_sub_allowed : ∀ c ∈ letterCharset, c ∈ allowedCharset := by decide

theorem upper_sub_allowed : ∀ c ∈ upperCharset, c ∈ allowedCharset := by decide

theorem digit_sub_allowed : ∀ c ∈ digitCharset, c ∈ allowedCharset := by decide

theorem special_sub_allowed : ∀ c ∈ specialCharset, c ∈ allowedCharset := by decide

/-- The four classes are pairwise disjoint on their union. -/
theorem allowed_classCount : ∀ c ∈ allowedCharset, classCount c = 1 := by decide

/-- Selecting from a non-empty charset yields a member. -/
theorem charsetSelect_mem {charset : List Nat} (h : charset ≠ []) (b : Nat) :
    charsetSelect charset b ∈ charset := by
  have hlen : 0 < charset.length := List.length_pos.mpr h
  have hidx : b % charset.length < charset.length := Nat.mod_lt _ hlen
  rw [charsetSelect, List.getD_eq_getElem?_getD, List.getElem?_eq_getElem hidx]
  exact List.getElem_mem hidx

theorem digitApply_mem (c : Nat) (s : Nat → Nat) (k : Nat) :
    (digitApply c s k).1 ∈ digitCharset :=
  charsetSelect_mem (by decide) _

theorem specialApply_mem (c : Nat) (s : Nat → Nat) (k : Nat) :
    (specialApply c s k).1 ∈ specialCharset :=
  charsetSelect_mem (by decide) _

/-! ## Facts about the base fill -/

theorem generateBaseAux_length (s : Nat → Nat) : ∀ n k, (generateBaseAux s n k).1.length = n := by
  intro n
  induction n with
  | zero => intro k; rfl
  | succ n ih => intro k; simp [generateBaseAux, ih]

theorem generateBaseAux_mem (s : Nat → Nat) :
    ∀ n k, ∀ x ∈ (generateBaseAux s n k).1, x ∈ letterCharset := by
  intro n
  induction n with
  | zero => intro k x hx; simp [generateBaseAux] at hx
  | succ n ih =>
    intro k x hx
    simp only [generateBaseAux, List.mem_cons] at hx
    rcases hx with rfl | hx
    · exact charsetSelect_mem (by decide) _
    · exact ih _ x hx

/-! ## Facts about the substitution passes -/

/-- Unfolding equation for the attempt loop. -/
theorem seekOneAux_succ (len : Nat) (f : Nat → (Nat → Nat) → Nat → Nat × Nat)
    (s : Nat → Nat) (buf : List Nat) (fuel k : Nat) :
    seekOneAux len f s buf (fuel + 1) k =
      if buf.getD (s k % len) 0 ∈ letterCharset then
        some (buf.set (s k % len) ((f (buf.getD (s k % len) 0) s (k + 1)).1),
          (f (buf.getD (s k % len) 0) s (k + 1)).2)
      else seekOneAux len f s buf fuel (k + 1) := rfl

/-- Unfolding equation for the outer substitution loop. -/
theorem seekNonBase_succ (len : Nat) (f : Nat → (Nat → Nat) → Nat → Nat × Nat)
    (s : Nat → Nat) (count : Nat) (buf : List Nat) (k : Nat) :
    seekNonBaseLetterAndApply len f s (count + 1) buf k =
      match seekOneAux len f s buf 100000 k with
      | none => none
      | some (buf2, k2) => seekNonBaseLetterAndApply len f s count buf2 k2 := rfl

/-- A successful attempt replaces one position that still held a base
letter with the result of the apply function. -/
theorem seekOne_some {len : Nat} {f : Nat → (Nat → Nat) → Nat → Nat × Nat}
    {s : Nat → Nat} {buf : List Nat} :
    ∀ {fuel k buf2 k2}, seekOneAux len f s buf fuel k = some (buf2, k2) →
      ∃ pos k0, buf.getD pos 0 ∈ letterCharset ∧
        buf2 = buf.set pos ((f (buf.getD pos 0) s k0).1) ∧
        k2 = (f (buf.getD pos 0) s k0).2 := by
  intro fuel
  induction fuel with
  | zero => intro k buf2 k2 h; simp [seekOneAux] at h
  | succ fuel ih =>
    intro k buf2 k2 h
    rw [seekOneAux_succ] at h
    by_cases hc : buf.getD (s k % len) 0 ∈ letterCharset
    · rw [if_pos hc] at h
      simp only [Option.some.injEq, Prod.mk.injEq] at h
      exact ⟨s k % len, k + 1, hc, h.1.symm, h.2.symm⟩
    · rw [if_neg hc] at h
      exact ih h

/-- A position that still holds a base letter is inside the buffer
(the default value 0 is not a letter). -/
theorem getD_mem_letter_lt {buf : List Nat} {pos : Nat}
    (h : buf.getD pos 0 ∈ letterCharset) : pos < buf.length := by
  by_contra hge
  rw [not_lt] at hge
  rw [List.getD_eq_getElem?_getD, List.getElem?_eq_none hge] at h
  exact zero_not_mem_letter h

/-- If the stream keeps pointing at positions that no longer hold base
letters, the attempt loop exhausts its budget. -/
theorem seekOne_none {len : Nat} {f : Nat → (Nat → Nat) → Nat → Nat × Nat}
    {s : Nat → Nat} {buf : List Nat} :
    ∀ fuel k, (∀ j, buf.getD (s (k + j) % len) 0 ∉ letterCharset) →
      seekOneAux len f s buf fuel k = none := by
  intro fuel
  induction fuel with
  | zero => intro k _; rfl
  | succ fuel ih =>
    intro k h
    rw [seekOneAux_succ, if_neg (by simpa using h 0)]
    exact ih (k + 1) fun j => by simpa [Nat.add_assoc] using h (1 + j)

/-- Buffer length is preserved by a substitution pass. -/
theorem seek_length {len : Nat} {f : Nat → (Nat → Nat) → Nat → Nat × Nat} {s : Nat → Nat} :
    ∀ {count buf k buf2 k2},
      seekNonBaseLetterAndApply len f s count buf k = some (buf2, k2) →
      buf2.length = buf.length := by
  intro count
  induction count with
  | zero =>
    intro buf k buf2 k2 h
    simp only [seekNonBaseLetterAndApply, Option.some.injEq, Prod.mk.injEq] at h
    rw [← h.1]
  | succ count ih =>
    intro buf k buf2 k2 h
    rw [seekNonBase_succ] at h
    cases hOne : seekOneAux len f s buf 100000 k with
    | none => rw [hOne] at h; simp at h
    | some r =>
      obtain ⟨bufm, km⟩ := r
      rw [hOne] at h
      obtain ⟨pos, k0, hmem, hbm, hkm⟩ := seekOne_some hOne
      have := ih h
      rw [this, hbm, List.length_set]

/-- How a substitution pass moves class counts: each of the `count`
substitutions removes one byte on which the class indicator is `bl`
(its value on base letters) and adds one on which it is `bo` (its value
on apply-function outputs). -/
theorem seek_countClass {S : List Nat} {f : Nat → (Nat → Nat) → Nat → Nat × Nat}
    {bl bo : Bool}
    (hbase : ∀ c ∈ letterCharset, decide (c ∈ S) = bl)
    (hout : ∀ c ∈ letterCharset, ∀ s k, decide ((f c s k).1 ∈ S) = bo)
    {len : Nat} {s : Nat → Nat} :
    ∀ {count buf k buf2 k2},
      seekNonBaseLetterAndApply len f s count buf k = some (buf2, k2) →
      countClass S buf2 + count * bl.toNat = countClass S buf + count * bo.toNat := by
  intro count
  induction count with
  | zero =>
    intro buf k buf2 k2 h
    simp only [seekNonBaseLetterAndApply, Option.some.injEq, Prod.mk.injEq] at h
    rw [h.1]
    simp
  | succ count ih =>
    intro buf k buf2 k2 h
    rw [seekNonBase_succ] at h
    cases hOne : seekOneAux len f s buf 100000 k with
    | none => rw [hOne] at h; simp at h
    | some r =>
      obtain ⟨bufm, km⟩ := r
      rw [hOne] at h
      obtain ⟨pos, k0, hmem, hbm, hkm⟩ := seekOne_some hOne
      have hpos : pos < buf.length := getD_mem_letter_lt hmem
      have hget : buf[pos] = buf.getD pos 0 := by
        rw [List.getD_eq_getElem?_getD, List.getElem?_eq_getElem hpos]
        rfl
      have hbn : ∀ b : Bool, (if b = true then (1 : Nat) else 0) = b.toNat := by
        intro b; cases b <;> rfl
      have hset := List.countP_set (fun c => decide (c ∈ S)) buf pos
        ((f (buf.getD pos 0) s k0).1) hpos
      have h1 : decide (buf[pos] ∈ S) = bl := by rw [hget]; exact hbase _ hmem
      have h2 : decide ((f (buf.getD pos 0) s k0).1 ∈ S) = bo := hout _ hmem s k0
      simp only [hbn] at hset
      rw [h1, h2] at hset
      have hle := List.boole_getElem_le_countP (fun c => decide (c ∈ S)) buf pos hpos
      simp only [hbn] at hle
      rw [h1] at hle
      have ihh := ih h
      rw [hbm] at ihh
      unfold countClass at ihh ⊢
      rw [hset] at ihh
      cases bl <;> cases bo <;>
        simp only [Bool.toNat_true, Bool.toNat_false, Nat.mul_zero, Nat.mul_one,
          Nat.add_zero, Nat.sub_zero] at ihh hle ⊢ <;> omega

/-- A property of all bytes of the buffer that holds for every
apply-function output is preserved by a substitution pass. -/
theorem seek_forall {Q : Nat → Prop} {f : Nat → (Nat → Nat) → Nat → Nat × Nat}
    (hout : ∀ c ∈ letterCharset, ∀ s k, Q ((f c s k).1))
    {len : Nat} {s : Nat → Nat} :
    ∀ {count buf k buf2 k2},
      seekNonBaseLetterAndApply len f s count buf k = some (buf2, k2) →
      (∀ x ∈ buf, Q x) → ∀ x ∈ buf2, Q x := by
  intro count
  induction count with
  | zero =>
    intro buf k buf2 k2 h hq
    simp only [seekNonBaseLetterAndApply, Option.some.injEq, Prod.mk.injEq] at h
    rw [← h.1]
    exact hq
  | succ count ih =>
    intro buf k buf2 k2 h hq
    rw [seekNonBase_succ] at h
    cases hOne : seekOneAux len f s buf 100000 k with
    | none => rw [hOne] at h; simp at h
    | some r =>
      obtain ⟨bufm, km⟩ := r
      rw [hOne] at h
      obtain ⟨pos, k0, hmem, hbm, hkm⟩ := seekOne_some hOne
      refine ih h ?_
      rw [hbm]
      intro x hx
      rcases List.mem_or_eq_of_mem_set hx with hx2 | rfl
      · exact hq x hx2
      · exact hout _ hmem s k0

/-- Every byte of a successful `Generate` output is a member of one of
the four charsets. -/
theorem generate_mem_allowed {g : Generator} {s : Nat → Nat} {k : Nat}
    {r : List Nat × Nat} (h : Generate g s k = some r) :
    ∀ x ∈ r.1, x ∈ allowedCharset := by
  obtain ⟨b, kf⟩ := r
  simp only [Generate, Option.bind_eq_some] at h
  obtain ⟨⟨b1, k1⟩, hU, ⟨b2, k2⟩, hD, hS⟩ := h
  have hbase : ∀ x ∈ (generateBase g s k).1, x ∈ allowedCharset :=
    fun x hx => letter_sub_allowed x (generateBaseAux_mem s g.length k x hx)
  have h1 : ∀ x ∈ b1, x ∈ allowedCharset :=
    seek_forall (fun c hc s2 k3 => upper_sub_allowed _ (letter_upper_facts c hc).1) hU hbase
  have h2 : ∀ x ∈ b2, x ∈ allowedCharset :=
    seek_forall (fun c hc s2 k3 => digit_sub_allowed _ (digitApply_mem c s2 k3)) hD h1
  exact seek_forall (fun c hc s2 k3 => special_sub_allowed _ (specialApply_mem c s2 k3)) hS h2

/-- C1: a successful `Generate` run on a valid config returns exactly
`length` bytes, with exactly the requested number of uppercase, digit
and special bytes, every other byte a base lowercase letter, and every
byte in exactly one of the four charset classes. -/
theorem generate_counts (g : Generator) (hlen : g.length ≤ 128)
    (hsum : g.uppercaseCount + g.digitCount + g.specialCount ≤ g.length)
    (s : Nat → Nat) (k : Nat) (b : List Nat) (kf : Nat)
    (h : Generate g s k = some (b, kf)) :
    b.length = g.length ∧
    countClass upperCharset b = g.uppercaseCount ∧
    countClass digitCharset b = g.digitCount ∧
    countClass specialCharset b = g.specialCount ∧
    countClass letterCharset b
      = g.length - (g.uppercaseCount + g.digitCount + g.specialCount) ∧
    ∀ x ∈ b, classCount x = 1 := by
  have hall : ∀ x ∈ b, x ∈ allowedCharset := generate_mem_allowed h
  simp only [Generate, Option.bind_eq_some] at h
  obtain ⟨⟨b1, k1⟩, hU, ⟨b2, k2⟩, hD, hS⟩ := h
  dsimp only at hU hD hS
  have hblen : (generateBase g s k).1.length = g.length := generateBaseAux_length s g.length k
  have hbmem : ∀ x ∈ (generateBase g s k).1, x ∈ letterCharset := generateBaseAux_mem s g.length k
  have cL0 : countClass letterCharset (generateBase g s k).1 = g.length := by
    unfold countClass
    exact (List.countP_eq_length.mpr fun a ha => decide_eq_true (hbmem a ha)).trans hblen
  have cU0 : countClass upperCharset (generateBase g s k).1 = 0 :=
    List.countP_eq_zero.mpr fun a ha => by
      simp only [decide_eq_true_eq]
      exact (letter_class a (hbmem a ha)).1
  have cD0 : countClass digitCharset (generateBase g s k).1 = 0 :=
    List.countP_eq_zero.mpr fun a ha => by
      simp only [decide_eq_true_eq]
      exact (letter_class a (hbmem a ha)).2.1
  have cS0 : countClass specialCharset (generateBase g s k).1 = 0 :=
    List.countP_eq_zero.mpr fun a ha => by
      simp only [decide_eq_true_eq]
      exact (letter_class a (hbmem a ha)).2.2
  have hULen := seek_length hU
  have hDLen := seek_length hD
  have hSLen := seek_length hS
  have hUL := seek_countClass (fun c hc => decide_eq_true hc)
    (fun c hc s2 k3 => decide_eq_false (letter_upper_facts c hc).2.1) hU
  have hUU := seek_countClass (fun c hc => decide_eq_false (letter_class c hc).1)
    (fun c hc s2 k3 => decide_eq_true (letter_upper_facts c hc).1) hU
  have hUD := seek_countClass (fun c hc => decide_eq_false (letter_class c hc).2.1)
    (fun c hc s2 k3 => decide_eq_false (letter_upper_facts c hc).2.2.1) hU
  have hUS := seek_countClass (fun c hc => decide_eq_false (letter_class c hc).2.2)
    (fun c hc s2 k3 => decide_eq_false (letter_upper_facts c hc).2.2.2) hU
  have hDL := seek_countClass (fun c hc => decide_eq_true hc)
    (fun c hc s2 k3 => decide_eq_false (digit_class _ (digitApply_mem c s2 k3)).1) hD
  have hDU := seek_countClass (fun c hc => decide_eq_false (letter_class c hc).1)
    (fun c hc s2 k3 => decide_eq_false (digit_class _ (digitApply_mem c s2 k3)).2.1) hD
  have hDD := seek_countClass (fun c hc => decide_eq_false (letter_class c hc).2.1)
    (fun c hc s2 k3 => decide_eq_true (digitApply_mem c s2 k3)) hD
  have hDS := seek_countClass (fun c hc => decide_eq_false (letter_class c hc).2.2)
    (fun c hc s2 k3 => decide_eq_false (digit_class _ (digitApply_mem c s2 k3)).2.2) hD
  have hSL := seek_countClass (fun c hc => decide_eq_true hc)
    (fun c hc s2 k3 => decide_eq_false (special_class _ (specialApply_mem c s2 k3)).1) hS
  have hSU := seek_countClass (fun c hc => decide_eq_false (letter_class c hc).1)
    (fun c hc s2 k3 => decide_eq_false (special_class _ (specialApply_mem c s2 k3)).2.1) hS
  have hSD := seek_countClass (fun c hc => decide_eq_false (letter_class c hc).2.1)
    (fun c hc s2 k3 => decide_eq_false (special_class _ (specialApply_mem c s2 k3)).2.2) hS
  have hSS := seek_countClass (fun c hc => decide_eq_false (letter_class c hc).2.2)
    (fun c hc s2 k3 => decide_eq_true (specialApply_mem c s2 k3)) hS
  simp only [Bool.toNat_true, Bool.toNat_false, Nat.mul_zero, Nat.mul_one, Nat.add_zero]
    at hUL hUU hUD hUS hDL hDU hDD hDS hSL hSU hSD hSS
  refine ⟨?_, ?_, ?_, ?_, ?_, fun x hx => allowed_classCount x (hall x hx)⟩ <;> omega

/-- C1 witness: a concrete successful run (stream `fun n => n`) checked
against `generate_counts`. -/
theorem generate_counts_witness :
    ([65, 54, 99, 42] : List Nat).length = 4 ∧
    countClass upperCharset [65, 54, 99, 42] = 1 ∧
    countClass digitCharset [65, 54, 99, 42] = 1 ∧
    countClass specialCharset [65, 54, 99, 42] = 1 ∧
    countClass letterCharset [65, 54, 99, 42] = 4 - (1 + 1 + 1) ∧
    ([65, 54, 99, 42] : List Nat).all (fun x => classCount x == 1) = true := by
  have h := generate_counts ⟨4, 1, 1, 1⟩ (by decide) (by decide) (fun n => n) 0
    [65, 54, 99, 42] 9 (by decide)
  exact ⟨h.1, h.2.1, h.2.2.1, h.2.2.2.1, h.2.2.2.2.1,
    List.all_eq_true.mpr fun x hx => beq_iff_eq.mpr (h.2.2.2.2.2 x hx)⟩

/-! ## Entropy estimator -/

theorem size_eq_of_bounds {m n : Nat} (h1 : 2 ^ n ≤ m) (h2 : m < 2 ^ (n + 1)) :
    Nat.size m = n + 1 :=
  le_antisymm (Nat.size_le.mpr h2) (Nat.lt_size.mpr h1)

/-- C3: `EntropyMax` is the bit length of `pool ^ length - 1` with
`pool = 1 + 24 (+24 if uppercase requested) (+10 if digits requested)
(+18 if specials requested)`. -/
theorem entropyMax_formula (g : Generator) (hlen : g.length ≤ 128)
    (hsum : g.uppercaseCount + g.digitCount + g.specialCount ≤ g.length) :
    EntropyMax g = Nat.size ((1 + 24 + (if 0 < g.uppercaseCount then 24 else 0)
      + (if 0 < g.digitCount then 10 else 0)
      + (if 0 < g.specialCount then 18 else 0)) ^ g.length - 1) := by
  unfold EntropyMax possibleCharsMax
  simp only [letterCharset_length, digitCharset_length, specialCharset_length,
    Nat.pos_iff_ne_zero]

/-- C3 witness. -/
theorem entropyMax_formula_witness :
    EntropyMax ⟨14, 2, 1, 1⟩ = Nat.size ((1 + 24 + (if 0 < (2 : Nat) then 24 else 0)
      + (if 0 < (1 : Nat) then 10 else 0) + (if 0 < (1 : Nat) then 18 else 0)) ^ 14 - 1) :=
  entropyMax_formula ⟨14, 2, 1, 1⟩ (by decide) (by decide)

/-- Closed form of `EntropyMin` when the mathematical count sum does
not exceed the length (shared helper). -/
theorem entropyMin_eq (g : Generator) (h32 : g.length < U32)
    (hsum : g.uppercaseCount + g.digitCount + g.specialCount ≤ g.length) :
    EntropyMin g = Except.ok (Nat.size
      ((1 + 24) ^ (g.length - (g.uppercaseCount + g.digitCount + g.specialCount))
        * (1 + 24) ^ g.uppercaseCount * (1 + 10) ^ g.digitCount
        * (1 + 18) ^ g.specialCount - 1)) := by
  have hw : (g.uppercaseCount + g.digitCount + g.specialCount) % U32
      = g.uppercaseCount + g.digitCount + g.specialCount :=
    Nat.mod_eq_of_lt (lt_of_le_of_lt hsum h32)
  unfold EntropyMin
  simp only [letterCharset_length, digitCharset_length, specialCharset_length, hw, one_mul]
  rw [if_neg (not_lt.mpr hsum)]

/-- C4: for a config whose mathematical count sum does not exceed the
length, `EntropyMin` succeeds with the bit length of
`25^base * 25^upper * 11^digit * 19^special - 1`. -/
theorem entropyMin_formula (g : Generator) (h32 : g.length < U32)
    (hsum : g.uppercaseCount + g.digitCount + g.specialCount ≤ g.length) :
    EntropyMin g = Except.ok (Nat.size
      ((1 + 24) ^ (g.length - (g.uppercaseCount + g.digitCount + g.specialCount))
        * (1 + 24) ^ g.uppercaseCount * (1 + 10) ^ g.digitCount
        * (1 + 18) ^ g.specialCount - 1)) :=
  entropyMin_eq g h32 hsum

/-- C4 witness. -/
theorem entropyMin_formula_witness :
    EntropyMin ⟨14, 2, 1, 1⟩ = Except.ok (Nat.size
      ((1 + 24) ^ (14 - (2 + 1 + 1)) * (1 + 24) ^ 2 * (1 + 10) ^ 1 * (1 + 18) ^ 1 - 1)) :=
  entropyMin_formula ⟨14, 2, 1, 1⟩ (by decide) (by decide)

theorem entropyMax14 : EntropyMax ⟨14, 2, 1, 1⟩ = 88 := by
  have h : possibleCharsMax ⟨14, 2, 1, 1⟩ = 77 := by decide
  unfold EntropyMax
  rw [h]
  show Nat.size (77 ^ 14 - 1) = 88
  exact size_eq_of_bounds (by norm_num) (by norm_num)

theorem entropyMin14 : EntropyMin ⟨14, 2, 1, 1⟩ = Except.ok 64 := by
  rw [show EntropyMin ⟨14, 2, 1, 1⟩
    = Except.ok (Nat.size (1 * 25 ^ 10 * 25 ^ 2 * 11 ^ 1 * 19 ^ 1 - 1)) from rfl]
  congr 1
  exact size_eq_of_bounds (by norm_num) (by norm_num)

/-- C5: the README worked example: length 14 with 2 uppercase, 1 digit,
1 special gives 88 max bits, 64 min bits, realistic 76, rated "Good". -/
theorem entropy_example :
    EntropyMax ⟨14, 2, 1, 1⟩ = 88 ∧ EntropyMin ⟨14, 2, 1, 1⟩ = Except.ok 64 ∧
    ((88 : ℚ) + 64) / 2 = 76 ∧ getRatingString (((88 : ℚ) + 64) / 2) = "Good" := by
  refine ⟨entropyMax14, entropyMin14, by norm_num, ?_⟩
  norm_num [getRatingString]

/-- C6: on every valid config, `EntropyMin` succeeds and its value is at
most `EntropyMax`. -/
theorem entropyMax_ge_entropyMin (g : Generator) (hlen : g.length ≤ 128)
    (hsum : g.uppercaseCount + g.digitCount + g.specialCount ≤ g.length) :
    (EntropyMin g).isOk = true ∧ ∀ v, EntropyMin g = Except.ok v → v ≤ EntropyMax g := by
  have h32 : g.length < U32 := lt_of_le_of_lt hlen (by norm_num [U32])
  have hmin := entropyMin_eq g h32 hsum
  refine ⟨by rw [hmin]; rfl, ?_⟩
  intro v hv
  rw [hmin] at hv
  injection hv with hv
  subst hv
  unfold EntropyMax
  apply Nat.size_le_size
  apply Nat.sub_le_sub_right
  have hP : 25 ≤ possibleCharsMax g := by
    unfold possibleCharsMax
    rw [letterCharset_length, digitCharset_length, specialCharset_length]
    split_ifs <;> norm_num
  calc (1 + 24) ^ (g.length - (g.uppercaseCount + g.digitCount + g.specialCount))
        * (1 + 24) ^ g.uppercaseCount * (1 + 10) ^ g.digitCount * (1 + 18) ^ g.specialCount
      ≤ 25 ^ (g.length - (g.uppercaseCount + g.digitCount + g.specialCount))
        * 25 ^ g.uppercaseCount * 25 ^ g.digitCount * 25 ^ g.specialCount := by
        refine Nat.mul_le_mul (Nat.mul_le_mul (Nat.mul_le_mul ?_ ?_) ?_) ?_ <;>
          exact Nat.pow_le_pow_left (by norm_num) _
    _ = 25 ^ (g.length - (g.uppercaseCount + g.digitCount + g.specialCount)
          + g.uppercaseCount + g.digitCount + g.specialCount) := by
        rw [← pow_add, ← pow_add, ← pow_add]
    _ = 25 ^ g.length := by congr 1; omega
    _ ≤ possibleCharsMax g ^ g.length := Nat.pow_le_pow_left hP _

/-- C6 witness. -/
theorem entropyMax_ge_entropyMin_witness :
    (EntropyMin ⟨14, 2, 1, 1⟩).isOk = true ∧ (64 : Nat) ≤ EntropyMax ⟨14, 2, 1, 1⟩ := by
  have h := entropyMax_ge_entropyMin ⟨14, 2, 1, 1⟩ (by decide) (by decide)
  exact ⟨h.1, h.2 64 entropyMin14⟩

/-- C9: a generator accepted by `NewGenerator` can never hit the
defensive error branch of `EntropyMin`, which re-checks the identical
wrapping `uint32` sum. -/
theorem entropyMin_ok_of_newGenerator (l u d sc : Nat) (g : Generator)
    (h : NewGenerator l u d sc = Except.ok g) : (EntropyMin g).isOk = true := by
  unfold NewGenerator at h
  dsimp only at h
  split_ifs at h with h1 h2
  injection h with h
  subst h
  unfold EntropyMin
  dsimp only
  rw [if_neg h2]
  rfl

/-- C9 witness. -/
theorem entropyMin_ok_of_newGenerator_witness : (EntropyMin ⟨14, 2, 1, 1⟩).isOk = true :=
  entropyMin_ok_of_newGenerator 14 2 1 1 ⟨14, 2, 1, 1⟩ rfl

/-! ## Validation (NewGenerator) -/

/-- C2 counterexample: the validation sum is a wrapping `uint32`
addition, so a parameter set whose mathematical sum `4294967295 + 1 + 0`
exceeds the length 0 is nevertheless accepted (the wrapped sum is 0). -/
theorem newGenerator_counterexample :
    NewGenerator 0 4294967295 1 0 = Except.ok ⟨0, 4294967295, 1, 0⟩ ∧
    0 < 4294967295 + 1 + 0 := ⟨rfl, by norm_num⟩

/-- C2 amended: `NewGenerator` fails exactly when `length > 128` or the
`uint32`-wrapped sum of the three counts exceeds the length; otherwise
it returns the four values unchanged. -/
theorem newGenerator_amended (l u d sc : Nat) :
    ((NewGenerator l u d sc).isOk = false ↔ 128 < l ∨ l < (u + d + sc) % U32) ∧
    (¬(128 < l ∨ l < (u + d + sc) % U32) →
      NewGenerator l u d sc = Except.ok ⟨l, u, d, sc⟩) := by
  unfold NewGenerator
  dsimp only
  split_ifs with h1 h2
  · exact ⟨⟨fun _ => Or.inl h1, fun _ => rfl⟩, fun hcon => absurd (Or.inl h1) hcon⟩
  · exact ⟨⟨fun _ => Or.inr h2, fun _ => rfl⟩, fun hcon => absurd (Or.inr h2) hcon⟩
  · refine ⟨⟨fun hfalse => ?_, fun hor => ?_⟩, fun _ => rfl⟩
    · simp [Except.isOk, Except.toBool] at hfalse
    · rcases hor with hl | hs
      · exact absurd hl h1
      · exact absurd hs h2

/-- C2 witness. -/
theorem newGenerator_amended_witness :
    NewGenerator 14 2 1 1 = Except.ok ⟨14, 2, 1, 1⟩ :=
  (newGenerator_amended 14 2 1 1).2 (by decide)

/-! ## The anti-deadlock cap (C7) -/

/-- When the buffer is still all base letters, a single substitution
succeeds on its very first position draw. -/
theorem seek_one_ok (f : Nat → (Nat → Nat) → Nat → Nat × Nat) (len : Nat) (s : Nat → Nat)
    {buf : List Nat} (hbuf : ∀ x ∈ buf, x ∈ letterCharset) (hblen : buf.length = len)
    (h0 : 0 < len) (k : Nat) :
    (seekNonBaseLetterAndApply len f s 1 buf k).isSome = true := by
  have hpos : s k % len < buf.length := by rw [hblen]; exact Nat.mod_lt _ h0
  have hget : buf.getD (s k % len) 0 = buf[s k % len] := by
    rw [List.getD_eq_getElem?_getD, List.getElem?_eq_getElem hpos]; rfl
  have hc : buf.getD (s k % len) 0 ∈ letterCharset := by
    rw [hget]; exact hbuf _ (List.getElem_mem hpos)
  have h1 := seekNonBase_succ len f s 0 buf k
  norm_num at h1
  rw [h1, show (100000 : Nat) = 99999 + 1 from rfl, seekOneAux_succ, if_pos hc]
  rfl

/-- C7 amended: the anti-deadlock error is unreachable whenever at most
one substitution is requested (the first position draw of a substitution
on an all-base buffer always succeeds); `generate_antideadlock_counterexample`
shows it is reachable for two or more substitutions under an adversarial
entropy stream. -/
theorem generate_ok_of_few_subst (g : Generator) (hlen : g.length ≤ 128)
    (hsum : g.uppercaseCount + g.digitCount + g.specialCount ≤ g.length)
    (hone : g.uppercaseCount + g.digitCount + g.specialCount ≤ 1)
    (s : Nat → Nat) (k : Nat) : (Generate g s k).isSome = true := by
  obtain ⟨len, u, d, sc⟩ := g
  dsimp only at hsum hone
  have hbmem : ∀ x ∈ (generateBase ⟨len, u, d, sc⟩ s k).1, x ∈ letterCharset :=
    generateBaseAux_mem s len k
  have hblen : (generateBase ⟨len, u, d, sc⟩ s k).1.length = len :=
    generateBaseAux_length s len k
  have hcase : (u = 0 ∧ d = 0 ∧ sc = 0) ∨ (u = 1 ∧ d = 0 ∧ sc = 0) ∨
      (u = 0 ∧ d = 1 ∧ sc = 0) ∨ (u = 0 ∧ d = 0 ∧ sc = 1) := by omega
  rcases hcase with ⟨rfl, rfl, rfl⟩ | ⟨rfl, rfl, rfl⟩ | ⟨rfl, rfl, rfl⟩ | ⟨rfl, rfl, rfl⟩
  · simp [Generate, seekNonBaseLetterAndApply]
  · have h0 : 0 < len := by omega
    have hp := seek_one_ok uppercaseApply len s hbmem hblen h0 (generateBase ⟨len, 1, 0, 0⟩ s k).2
    obtain ⟨r1, hr1⟩ := Option.isSome_iff_exists.mp hp
    simp only [Generate]
    rw [hr1]
    simp [seekNonBaseLetterAndApply]
  · have h0 : 0 < len := by omega
    have hp := seek_one_ok digitApply len s hbmem hblen h0 (generateBase ⟨len, 0, 1, 0⟩ s k).2
    obtain ⟨r2, hr2⟩ := Option.isSome_iff_exists.mp hp
    simp only [Generate]
    rw [show seekNonBaseLetterAndApply len uppercaseApply s 0
      (generateBase ⟨len, 0, 1, 0⟩ s k).1 (generateBase ⟨len, 0, 1, 0⟩ s k).2
      = some ((generateBase ⟨len, 0, 1, 0⟩ s k).1, (generateBase ⟨len, 0, 1, 0⟩ s k).2)
      from rfl]
    rw [Option.some_bind]
    dsimp only
    rw [hr2]
    simp [seekNonBaseLetterAndApply]
  · have h0 : 0 < len := by omega
    have hp := seek_one_ok specialApply len s hbmem hblen h0 (generateBase ⟨len, 0, 0, 1⟩ s k).2
    obtain ⟨r3, hr3⟩ := Option.isSome_iff_exists.mp hp
    simp only [Generate]
    rw [show seekNonBaseLetterAndApply len uppercaseApply s 0
      (generateBase ⟨len, 0, 0, 1⟩ s k).1 (generateBase ⟨len, 0, 0, 1⟩ s k).2
      = some ((generateBase ⟨len, 0, 0, 1⟩ s k).1, (generateBase ⟨len, 0, 0, 1⟩ s k).2)
      from rfl]
    rw [Option.some_bind]
    dsimp only
    rw [show seekNonBaseLetterAndApply len digitApply s 0
      (generateBase ⟨len, 0, 0, 1⟩ s k).1 (generateBase ⟨len, 0, 0, 1⟩ s k).2
      = some ((generateBase ⟨len, 0, 0, 1⟩ s k).1, (generateBase ⟨len, 0, 0, 1⟩ s k).2)
      from rfl]
    rw [Option.some_bind]
    dsimp only
    rw [hr3]
    rfl

/-- C7 witness. -/
theorem generate_ok_of_few_subst_witness :
    (Generate ⟨3, 1, 0, 0⟩ (fun _ => 0) 0).isSome = true :=
  generate_ok_of_few_subst ⟨3, 1, 0, 0⟩ (by decide) (by decide) (by decide) (fun _ => 0) 0

/-- C7 counterexample: the valid config `length=2, uppercaseCount=2` is
accepted by `NewGenerator`, yet the entropy stream that always draws
position 0 makes the second substitution exhaust its 100000-attempt
budget, so `Generate` fails with the anti-deadlock internal invariant
error (`none`). -/
theorem generate_antideadlock_counterexample :
    NewGenerator 2 2 0 0 = Except.ok ⟨2, 2, 0, 0⟩ ∧
    Generate ⟨2, 2, 0, 0⟩ (fun _ => 0) 0 = none := by
  refine ⟨rfl, ?_⟩
  have hbase : generateBase ⟨2, 2, 0, 0⟩ (fun _ => 0) 0 = ([97, 97], 2) := rfl
  have h1 : seekOneAux 2 uppercaseApply (fun _ => 0) [97, 97] 100000 2
      = some ([65, 97], 3) := rfl
  have h2 : seekOneAux 2 uppercaseApply (fun _ => 0) [65, 97] 100000 3 = none :=
    seekOne_none 100000 3 fun j => by
      show (65 : Nat) ∉ letterCharset
      decide
  have hU : seekNonBaseLetterAndApply 2 uppercaseApply (fun _ => 0) 2 [97, 97] 2 = none := by
    have e1 := seekNonBase_succ 2 uppercaseApply (fun _ => 0) 1 [97, 97] 2
    norm_num at e1
    rw [e1, h1]
    show seekNonBaseLetterAndApply 2 uppercaseApply (fun _ => 0) 1 [65, 97] 3 = none
    have e2 := seekNonBase_succ 2 uppercaseApply (fun _ => 0) 0 [65, 97] 3
    norm_num at e2
    rw [e2, h2]
  simp only [Generate]
  rw [hbase]
  dsimp only
  rw [hU]
  rfl

/-! ## Distribution of secureRandomChar (C8) -/

/-- C8 counterexample: the final `% len(charset)` reduction of a
whitened byte is not uniform — 256 byte values do not split evenly over
any of the three charsets (e.g. the digit `0` is produced by 26 byte
values but the digit `9` only by 25). -/
theorem secureRandomChar_not_uniform :
    ¬(uniformOverCharset letterCharset ∧ uniformOverCharset digitCharset ∧
      uniformOverCharset specialCharset) := by
  intro h
  have hd := h.2.1 48 (by decide) 57 (by decide)
  exact absurd hd (by decide)

/-- C8 amended: the distribution is near-uniform: each member is
produced by either `⌊256/len⌋` or `⌈256/len⌉` of the 256 whitened byte
values (10 or 11 for the 24 lowercase letters, 25 or 26 for the 10
digits, 14 or 15 for the 18 specials). -/
theorem secureRandomChar_near_uniform :
    (∀ c ∈ letterCharset,
      produceCount letterCharset c = 10 ∨ produceCount letterCharset c = 11) ∧
    (∀ c ∈ digitCharset,
      produceCount digitCharset c = 25 ∨ produceCount digitCharset c = 26) ∧
    (∀ c ∈ specialCharset,
      produceCount specialCharset c = 14 ∨ produceCount specialCharset c = 15) := by
  decide

/-- C8 witness. -/
theorem secureRandomChar_near_uniform_witness :
    produceCount digitCharset 48 = 25 ∨ produceCount digitCharset 48 = 26 :=
  secureRandomChar_near_uniform.2.1 48 (by decide)

/-! ## No ambiguous letters (C10) -/

/-- C10: the ambiguous bytes l (108), o (111), L (76), O (79) occur in
no charset class, base fills produce only base letters, and every
successful `Generate` output stays inside the four classes, hence never
contains an ambiguous byte. -/
theorem no_ambiguous_chars :
    (108 ∉ allowedCharset ∧ 111 ∉ allowedCharset ∧
      76 ∉ allowedCharset ∧ 79 ∉ allowedCharset) ∧
    (∀ c ∈ letterCharset,
      asciiToUpper c ∈ upperCharset ∧ asciiToUpper c ≠ 76 ∧ asciiToUpper c ≠ 79) ∧
    (∀ s k n, ∀ x ∈ (generateBaseAux s n k).1, x ∈ letterCharset) ∧
    (∀ g s k r, Generate g s k = some r → ∀ x ∈ r.1, x ∈ allowedCharset) ∧
    (∀ g s k r, Generate g s k = some r →
      108 ∉ r.1 ∧ 111 ∉ r.1 ∧ 76 ∉ r.1 ∧ 79 ∉ r.1) := by
  have hbad : 108 ∉ allowedCharset ∧ 111 ∉ allowedCharset ∧
      76 ∉ allowedCharset ∧ 79 ∉ allowedCharset := by decide
  refine ⟨hbad, by decide, fun s k n => generateBaseAux_mem s n k,
    fun g s k r h => generate_mem_allowed h, fun g s k r h => ?_⟩
  have hm := generate_mem_allowed h
  exact ⟨fun hx => hbad.1 (hm _ hx), fun hx => hbad.2.1 (hm _ hx),
    fun hx => hbad.2.2.1 (hm _ hx), fun hx => hbad.2.2.2 (hm _ hx)⟩

/-- C10 witness. -/
theorem no_ambiguous_chars_witness :
    108 ∉ ([65, 54, 99, 42] : List Nat) ∧ 111 ∉ ([65, 54, 99, 42] : List Nat) ∧
    76 ∉ ([65, 54, 99, 42] : List Nat) ∧ 79 ∉ ([65, 54, 99, 42] : List Nat) :=
  no_ambiguous_chars.2.2.2.2 ⟨4, 1, 1, 1⟩ (fun n => n) 0 ([65, 54, 99, 42], 9) (by decide)

end Cpass
